/-
Verification of the home-router-exporter metric pipeline against its
natural-language specification.  The Rust sources are shallowly embedded:
pure parsing and encoding functions become Lean functions on lists and
strings, iterator state machines become explicit recursion, and machine
integers become Nat/Int with explicit wrap-around where the code can
overflow.
-/
import Mathlib

namespace HomeRouter

/-! ### Metric encoder (src/metric.rs) -/

/-- Embeds `enum Unit` from src/metric.rs (named `MetricUnit` because `Unit`
is taken by Lean). -/
inductive MetricUnit
  | bytes
  | celsius
  | hertz
  | info
  | none
  | packets
  | seconds
deriving DecidableEq

/-- Embeds `Unit::as_suffix`. -/
def MetricUnit.as_suffix : MetricUnit → String
  | .bytes => "_bytes"
  | .celsius => "_celsius"
  | .hertz => "_hertz"
  | .info => "_info"
  | .none => ""
  | .packets => "_packets"
  | .seconds => "_seconds"

/-- Embeds `enum Type` from src/metric.rs (named `MetricTy` because `Type`
is taken by Lean). -/
inductive MetricTy
  | counter
  | gauge
deriving DecidableEq

/-- Embeds `Type::as_suffix`. -/
def MetricTy.as_suffix : MetricTy → String
  | .counter => "_total"
  | .gauge => ""

/-- Embeds `Type::as_str`. -/
def MetricTy.as_str : MetricTy → String
  | .counter => "counter"
  | .gauge => "gauge"

/-- Embeds the `format!("{}_{}_{}{}{}", ...)` name construction in
`MetricEncoder::new`. -/
def metricName (ns subsys nm : String) (u : MetricUnit) (t : MetricTy) : String :=
  ns ++ "_" ++ subsys ++ "_" ++ nm ++ u.as_suffix ++ t.as_suffix

/-- Modelled from the spec: the unit-suffix table of §4.6, which lists
exactly six units (bytes, celsius, seconds, packets, info, none); for a
unit outside the table the spec assigns no suffix. -/
def specUnitSuffix : MetricUnit → Option String
  | .bytes => some "_bytes"
  | .celsius => some "_celsius"
  | .seconds => some "_seconds"
  | .packets => some "_packets"
  | .info => some "_info"
  | .none => some ""
  | .hertz => Option.none

/-- Modelled from the spec: type_suffix `_total` for counters, empty for
gauges. -/
def specTySuffix : MetricTy → String
  | .counter => "_total"
  | .gauge => ""

/-! ### Label-value escaping (`MetricEncoder::write_labels`) -/

/-- Embeds the per-character escaping match in `MetricEncoder::write_labels`:
backslash to two backslashes, double quote to backslash-quote, newline to
backslash-n, everything else verbatim. -/
def escapeChar (c : Char) : List Char :=
  if c = '\\' then ['\\', '\\']
  else if c = '"' then ['\\', '"']
  else if c = '\n' then ['\\', 'n']
  else [c]

/-- Embeds the escaping loop over a label value's characters. -/
def escapeLabel : List Char → List Char
  | [] => []
  | c :: rest => escapeChar c ++ escapeLabel rest

/-- The inverse unescape the spec speaks of: undoes the three escape pairs
and leaves every other character verbatim. -/
def unescapeLabel : List Char → List Char
  | [] => []
  | '\\' :: '\\' :: rest => '\\' :: unescapeLabel rest
  | '\\' :: '"' :: rest => '"' :: unescapeLabel rest
  | '\\' :: 'n' :: rest => '\n' :: unescapeLabel rest
  | c :: rest => c :: unescapeLabel rest

/-! ### Sample line and timestamp (`MetricEncoder::new` / `write`) -/

/-- Reinterpret a natural number below `2^64` as a two's-complement
signed 64-bit value, as the Rust `as i64` cast does. -/
def i64OfNat (n : Nat) : Int :=
  let m : Nat := n % 2 ^ 64
  if m < 2 ^ 63 then (m : Int) else (m : Int) - 2 ^ 64

/-- Embeds the timestamp initialisation in `MetricEncoder::new`: the
optional capture time (modelled by its signed milliseconds-since-epoch
value, negative meaning before the epoch) maps to 0 when absent, to 0 when
`duration_since(UNIX_EPOCH)` fails (a pre-epoch time), and otherwise to
`as_millis() as i64`. -/
def storedTimestamp : Option Int → Int
  | Option.none => 0
  | some ms => if ms < 0 then 0 else i64OfNat ms.toNat

/-- Embeds `MetricEncoder::write` for one sample: the timestamp segment is
appended exactly when the stored timestamp is positive. -/
def sampleLine (nameAndLabels val : String) (t : Option Int) : String :=
  if storedTimestamp t > 0 then
    nameAndLabels ++ " " ++ val ++ " " ++ toString (storedTimestamp t) ++ "\n"
  else
    nameAndLabels ++ " " ++ val ++ "\n"

/-! ### Theorems for the metric encoder claims -/

/-- C1: for every namespace, subsystem, metric name, unit listed in the
spec's table and kind, the produced metric name is the concatenation
namespace + "_" + subsystem + "_" + metric + unit_suffix + type_suffix
with the documented suffixes; the construction is a total function. -/
theorem metric_name_construction (ns subsys nm : String) (u : MetricUnit)
    (t : MetricTy) (us : String) (h : specUnitSuffix u = some us) :
    metricName ns subsys nm u t = ns ++ "_" ++ subsys ++ "_" ++ nm ++ us ++ specTySuffix t := by
  cases u <;> cases t <;> simp_all [specUnitSuffix, specTySuffix, metricName,
    MetricUnit.as_suffix, MetricTy.as_suffix]

/-- Witness for C1 at a concrete input. -/
theorem metric_name_construction_witness :
    metricName "homerouter" "cpu" "idle" .seconds .counter =
      "homerouter" ++ "_" ++ "cpu" ++ "_" ++ "idle" ++ "_seconds" ++ specTySuffix .counter :=
  metric_name_construction "homerouter" "cpu" "idle" .seconds .counter "_seconds" rfl

/-- C2: the encoder escapes a label value by mapping backslash, quote and
newline to their two-character escapes and everything else verbatim; the
value a"b\c encodes to a\"b\\c, and unescaping an escaped value recovers
the original for every input. -/
theorem label_escape_roundtrip :
    escapeLabel "a\"b\\c".toList = "a\\\"b\\\\c".toList ∧
      ∀ s : List Char, unescapeLabel (escapeLabel s) = s := by
  refine ⟨by decide, ?_⟩
  intro s
  induction s with
  | nil => rfl
  | cons c rest ih =>
    by_cases hb : c = '\\'
    · subst hb
      simp [escapeLabel, escapeChar, unescapeLabel, ih]
    · by_cases hq : c = '"'
      · subst hq
        simp [escapeLabel, escapeChar, unescapeLabel, ih]
      · by_cases hn : c = '\n'
        · subst hn
          simp [escapeLabel, escapeChar, unescapeLabel, ih]
        · simp only [escapeLabel, escapeChar, if_neg hb, if_neg hq, if_neg hn,
            List.cons_append, List.nil_append]
          rw [unescapeLabel.eq_def]
          split
          · simp_all
          · simp_all
          · simp_all
          · simp_all
          · simp_all [ih]

/-- C9 counterexample: a capture timestamp was supplied — the Unix epoch
itself, 0 milliseconds — yet the encoded line carries no timestamp
segment, identical to the line produced with no timestamp at all. -/
theorem sample_line_timestamp_counterexample :
    sampleLine "m" "1" (some 0) = "m 1\n" ∧
      sampleLine "m" "1" (some 0) = sampleLine "m" "1" Option.none := by
  constructor <;> decide

/-- C9 amended: the encoded line contains a trailing timestamp segment iff
the supplied capture timestamp converts to a positive stored millisecond
value — in particular iff one was supplied whose milliseconds since the
Unix epoch are positive (and below 2^63, where the i64 cast is the
identity) — and the segment then equals those milliseconds; with no
supplied timestamp, or a supplied one at or before the epoch, the segment
is omitted. -/
theorem sample_line_timestamp_amended (nl val : String) (t : Option Int) :
    (∀ ms : Int, t = some ms → 0 < ms → ms < 2 ^ 63 →
      sampleLine nl val t = nl ++ " " ++ val ++ " " ++ toString ms ++ "\n") ∧
    (t = Option.none → sampleLine nl val t = nl ++ " " ++ val ++ "\n") ∧
    (∀ ms : Int, t = some ms → ms ≤ 0 →
      sampleLine nl val t = nl ++ " " ++ val ++ "\n") := by
  refine ⟨?_, ?_, ?_⟩
  · intro ms ht hpos hsmall
    subst ht
    have hms : storedTimestamp (some ms) = ms := by
      simp only [storedTimestamp, if_neg (not_lt.mpr hpos.le), i64OfNat]
      have h1 : ms.toNat % 2 ^ 64 = ms.toNat := by
        apply Nat.mod_eq_of_lt
        have : ms.toNat < 2 ^ 63 := by omega
        omega
      simp only [h1]
      have h2 : ms.toNat < 2 ^ 63 := by omega
      rw [if_pos h2]
      omega
    simp [sampleLine, hms, hpos]
  · intro ht
    subst ht
    simp [sampleLine, storedTimestamp]
  · intro ms ht hle
    subst ht
    have hms : storedTimestamp (some ms) = 0 := by
      rcases lt_or_eq_of_le hle with h | h
      · simp [storedTimestamp, h]
      · subst h
        simp [storedTimestamp, i64OfNat]
    simp [sampleLine, hms]

/-- Witness for C9 amended at concrete inputs. -/
theorem sample_line_timestamp_amended_witness :
    sampleLine "m" "1" (some 5) = "m" ++ " " ++ "1" ++ " " ++ toString (5 : Int) ++ "\n" ∧
      sampleLine "m" "1" Option.none = "m" ++ " " ++ "1" ++ "\n" :=
  ⟨(sample_line_timestamp_amended "m" "1" (some 5)).1 5 rfl (by decide) (by decide),
   (sample_line_timestamp_amended "m" "1" Option.none).2.1 rfl⟩

/-! ### procfs readers (src/collector/linux/procfs.rs) -/

/-- Ascii whitespace, as `str::split_ascii_whitespace` uses it. -/
def isWS (c : Char) : Bool :=
  c = ' ' || c = '\t' || c = '\n' || c = '\x0C' || c = '\r'

/-- Helper for `splitWS`: accumulates the current word (reversed). -/
def splitWSAux : List Char → List Char → List (List Char)
  | [], acc => if acc.isEmpty then [] else [acc.reverse]
  | c :: rest, acc =>
    if isWS c then
      if acc.isEmpty then splitWSAux rest [] else acc.reverse :: splitWSAux rest []
    else
      splitWSAux rest (c :: acc)

/-- Embeds `str::split_ascii_whitespace().collect::<Vec<_>>()`. -/
def splitWS (s : List Char) : List (List Char) :=
  splitWSAux s []

/-- Embeds `str::parse::<u64>()`: an optional leading plus sign, then one
or more ascii digits, rejecting overflow past 2^64. -/
def parseU64 (w : List Char) : Option Nat :=
  let ds := match w with
    | '+' :: rest => rest
    | _ => w
  if ds.isEmpty then Option.none
  else if ds.all Char.isDigit then
    let v := ds.foldl (fun acc c => acc * 10 + (c.toNat - '0'.toNat)) 0
    if v < 2 ^ 64 then some v else Option.none
  else Option.none

/-- Embeds `struct Stat` from procfs.rs. -/
structure Stat where
  cpu : List Char
  idle_ticks : Nat
deriving DecidableEq

/-- Embeds `parse_stat_line`: at least five whitespace-separated columns
are required; the cpu label is column 0 and the idle tick count is
column 4 parsed as u64 with `unwrap_or(0)` (columns 1 and 3 are parsed
and discarded by the code). An error is `Option.none`. -/
def parse_stat_line (line : List Char) : Option Stat :=
  let cols := splitWS line
  if cols.length < 5 then Option.none
  else some ⟨cols.getD 0 [], (parseU64 (cols.getD 4 [])).getD 0⟩

/-- Embeds `line.strip_prefix("cpu")` in `StatIter::next`. -/
def stripCpu : List Char → Option (List Char)
  | 'c' :: 'p' :: 'u' :: rest => some rest
  | _ => Option.none

/-- Embeds driving `StatIter` to exhaustion over the lines of the stat
file: a line not starting with "cpu" stops the iteration; a line whose
"cpu" is followed by a space (the aggregate line) is skipped by the
`continue`; every other "cpu"-prefixed line is parsed and yielded
(`Option.none` standing for a yielded `Err`). -/
def statIterRun : List (List Char) → List (Option Stat)
  | [] => []
  | line :: rest =>
    match stripCpu line with
    | Option.none => []
    | some (' ' :: _) => statIterRun rest
    | some _ => parse_stat_line line :: statIterRun rest

/-- Embeds `sysconf_user_hz` from src/libc.rs: the raw `sysconf` result
(−1 on failure) is replaced by 100 when non-positive. -/
def sysconf_user_hz (raw : Int) : Nat :=
  if raw ≤ 0 then 100 else raw.toNat

/-- One emitted cpu idle sample: label and idle seconds, the tick count
divided by the clock-tick rate (the `f64` division modelled exactly
on ℚ). -/
def sampleOfStat (hz : Nat) (s : Stat) : List Char × ℚ :=
  (s.cpu, (s.idle_ticks : ℚ) / (hz : ℚ))

/-- Embeds `Linux::collect_cpu`: iterate the stats, stopping at the first
yielded error (`stat?`), writing one sample per stat. -/
def collect_cpu (lines : List (List Char)) (hz : Nat) : List (List Char × ℚ) :=
  ((statIterRun lines).takeWhile Option.isSome).filterMap (fun o => o.map (sampleOfStat hz))

/-- Whether a stat line is the aggregate line: "cpu" followed by a
space. -/
def isAggregate (l : List Char) : Bool :=
  match stripCpu l with
  | some (' ' :: _) => true
  | _ => false

/-- The amended behaviour stated independently: keep the leading run of
"cpu"-prefixed lines, drop the aggregate line, parse each remaining
per-core line, stop at the first parse error, and emit idle ticks over
the clock rate for each. -/
def perCoreIdleSamples (lines : List (List Char)) (hz : Nat) : List (List Char × ℚ) :=
  let cpuLines := lines.takeWhile (fun l => (stripCpu l).isSome)
  let perCore := cpuLines.filter (fun l => !(isAggregate l))
  ((perCore.map parse_stat_line).takeWhile Option.isSome).filterMap
    (fun o => o.map (sampleOfStat hz))

theorem statIterRun_eq (lines : List (List Char)) :
    statIterRun lines =
      ((lines.takeWhile (fun l => (stripCpu l).isSome)).filter
        (fun l => !(isAggregate l))).map parse_stat_line := by
  induction lines with
  | nil => rfl
  | cons line rest ih =>
    cases hs : stripCpu line with
    | none => simp [statIterRun, hs, List.takeWhile_cons, isAggregate]
    | some r =>
      cases r with
      | nil =>
        simp [statIterRun, hs, List.takeWhile_cons, List.filter_cons, isAggregate, ih]
      | cons c rtl =>
        by_cases hc : c = ' '
        · subst hc
          simp [statIterRun, hs, List.takeWhile_cons, List.filter_cons, isAggregate, ih]
        · have harm : statIterRun (line :: rest) = parse_stat_line line :: statIterRun rest := by
            simp only [statIterRun, hs]
            split
            · simp_all
            · simp_all
            · rfl
          rw [harm]
          have hagg : isAggregate line = false := by
            simp only [isAggregate, hs]
            split
            · simp_all
            · rfl
          simp [List.takeWhile_cons, hs, List.filter_cons, hagg, ih]

/-- C5 counterexample: a stat file whose aggregate line reports 1000 idle
ticks and whose single per-core line reports 600; the collector emits one
sample, labeled cpu0 with value 600/100 = 6 seconds, and nothing at all
for the aggregate line — so the emitted value is not the aggregate line's
idle ticks over the rate. -/
theorem collect_cpu_counterexample :
    collect_cpu ["cpu  100 0 50 1000 20".toList, "cpu0 100 0 50 600 20".toList,
        "intr 5".toList] 100 = [("cpu0".toList, (6 : ℚ))] := by
  have h : statIterRun ["cpu  100 0 50 1000 20".toList, "cpu0 100 0 50 600 20".toList,
      "intr 5".toList] = [some ⟨"cpu0".toList, 600⟩] := by decide
  simp only [collect_cpu, h]
  simp [List.filterMap_cons, sampleOfStat]
  norm_num

/-- C5 amended: the clock-tick rate defaults to 100 when the sysconf
query fails (non-positive result), and the collector skips the aggregate
line (the stat line whose "cpu" token is followed by a space), emitting
one sample per per-core "cpuN" line — value = that line's idle ticks
divided by the cached rate as fractional seconds — stopping at the first
line not starting with "cpu" and at the first malformed line. -/
theorem collect_cpu_amended (lines : List (List Char)) (raw : Int) :
    (raw ≤ 0 → sysconf_user_hz raw = 100) ∧
      collect_cpu lines (sysconf_user_hz raw) = perCoreIdleSamples lines (sysconf_user_hz raw) := by
  constructor
  · intro h
    simp [sysconf_user_hz, h]
  · simp only [collect_cpu, perCoreIdleSamples, statIterRun_eq]

/-- Witness for C5 amended at concrete inputs. -/
theorem collect_cpu_amended_witness :
    sysconf_user_hz (-1) = 100 ∧
      collect_cpu ["cpu0 1 2 3 4 5".toList] (sysconf_user_hz (-1)) =
        perCoreIdleSamples ["cpu0 1 2 3 4 5".toList] (sysconf_user_hz (-1)) :=
  ⟨(collect_cpu_amended [] (-1)).1 (by decide),
   (collect_cpu_amended ["cpu0 1 2 3 4 5".toList] (-1)).2⟩

/-! ### Mountinfo line parser (C8) -/

/-- Outcome of a Rust call that may panic: `panicked` models an actual
panic (process abort), `error` an `Err` return, `ok` an `Ok`. -/
inductive ParseOutcome (α : Type)
  | panicked
  | error
  | ok (v : α)
deriving DecidableEq

/-- Embeds `parse_pid_mountinfo_line`.  The Rust code slices
`cols[sep_min..]` with `sep_min = 6`, which panics when the line has
fewer than 6 whitespace-separated columns; this is modelled by the
`panicked` outcome.  Otherwise the separator column "-" is searched from
column 6 on (`map_or(0, ..)` turning absence into 0), malformed shapes
return an error, and success yields (major:minor, source, mountpoint) =
(column 2, column sep+2, column 4). -/
def parse_pid_mountinfo_line (line : List Char) :
    ParseOutcome (List Char × List Char × List Char) :=
  let cols := splitWS line
  if cols.length < 6 then .panicked
  else
    let sep := match (cols.drop 6).findIdx? (· == "-".toList) with
      | some idx => 6 + idx
      | Option.none => 0
    if sep < 6 ∨ cols.length < sep + 3 then .error
    else .ok (cols.getD 2 [], cols.getD (sep + 2) [], cols.getD 4 [])

/-- C8: the mountinfo line parser panics — rather than returning a
per-line error — on a line with fewer than six whitespace-separated
columns, because `cols[6..]` is an out-of-bounds slice there; evaluated
at the concrete failing input `1 2 0:3`. -/
theorem mountinfo_short_line_panics :
    parse_pid_mountinfo_line "1 2 0:3".toList = .panicked ∧
      parse_pid_mountinfo_line "".toList = .panicked := by
  constructor <;> decide

/-! ### nftables set decoding (src/collector/linux/nfnetlink.rs) -/

/-- Swap the four bytes of a 32-bit value, as `u32::swap_bytes` does. -/
def swap32 (n : Nat) : Nat :=
  (n % 2 ^ 8) * 2 ^ 24 + (n / 2 ^ 8 % 2 ^ 8) * 2 ^ 16 +
    (n / 2 ^ 16 % 2 ^ 8) * 2 ^ 8 + n / 2 ^ 24 % 2 ^ 8

/-- Embeds neli's `get_payload_as::<u32>`: exactly four payload bytes read
in native (little-endian) order, anything else a decode failure. -/
def getU32ne : List Nat → Option Nat
  | [b0, b1, b2, b3] => some (b0 + b1 * 2 ^ 8 + b2 * 2 ^ 16 + b3 * 2 ^ 24)
  | _ => Option.none

/-- A netfilter attribute of a get-set reply: its numeric tag, the outcome
of the string accessor `get_payload_as_with_len::<String>` (the library's
fallible decode, modelled by its result), and the raw payload bytes that
the integer accessors read. -/
structure NfAttr where
  tag : Nat
  asStr : Option (List Char)
  bytes : List Nat

/-- Embeds `struct NftSet` (family, table, name). -/
structure NftSet where
  family : Nat
  table : List Char
  name : List Char
deriving DecidableEq

/-- The four mutable locals of `parse_set`'s attribute loop. -/
structure SetAcc where
  table : Option (List Char) := Option.none
  name : Option (List Char) := Option.none
  flags : Option Nat := Option.none
  key_type : Option Nat := Option.none

/-- One iteration of `parse_set`'s loop: tags NFTA_SET_TABLE=1, NAME=2,
FLAGS=3, KEY_TYPE=4; the two 32-bit fields are decoded native-endian and
byte-swapped (`map(u32::swap_bytes)`), i.e. read big-endian. -/
def setAccStep (s : SetAcc) (a : NfAttr) : SetAcc :=
  if a.tag = 1 then { s with table := a.asStr }
  else if a.tag = 2 then { s with name := a.asStr }
  else if a.tag = 3 then { s with flags := (getU32ne a.bytes).map swap32 }
  else if a.tag = 4 then { s with key_type := (getU32ne a.bytes).map swap32 }
  else s

/-- The state of `parse_set`'s locals after the whole attribute loop. -/
def setAcc (attrs : List NfAttr) : SetAcc :=
  attrs.foldl setAccStep {}

/-- Embeds `parse_set`: absent-or-anonymous flags exclude the set
(`is_none_or(|flags| flags & NFT_SET_ANONYMOUS > 0)`), a key type outside
{7 = ipv4_addr, 8 = ipv6_addr, 9 = ether_addr} excludes it, and both a
table name and a set name are required. -/
def parse_set (family : Nat) (attrs : List NfAttr) : Option NftSet :=
  let s := setAcc attrs
  match s.flags with
  | Option.none => Option.none
  | some f =>
    if f &&& 1 > 0 then Option.none
    else
      match s.key_type with
      | Option.none => Option.none
      | some kt =>
        if kt = 7 ∨ kt = 8 ∨ kt = 9 then
          match s.table, s.name with
          | some t, some n => some ⟨family, t, n⟩
          | _, _ => Option.none
        else Option.none

/-- C4: a set whose decoded flags have the ANONYMOUS bit set is excluded
regardless of key type; a decoded key type outside {7, 8, 9} excludes the
set regardless of flags; and a set is returned only when it carries a
table name, a set name, decoded flags with the ANONYMOUS bit clear, and a
key type in {7, 8, 9}. -/
theorem parse_set_filtering (family : Nat) (attrs : List NfAttr) :
    (∀ f, (setAcc attrs).flags = some f → f &&& 1 ≠ 0 →
      parse_set family attrs = Option.none) ∧
    (∀ kt, (setAcc attrs).key_type = some kt → kt ≠ 7 → kt ≠ 8 → kt ≠ 9 →
      parse_set family attrs = Option.none) ∧
    (∀ st, parse_set family attrs = some st →
      ∃ f kt t n, (setAcc attrs).flags = some f ∧ f &&& 1 = 0 ∧
        (setAcc attrs).key_type = some kt ∧ (kt = 7 ∨ kt = 8 ∨ kt = 9) ∧
        (setAcc attrs).table = some t ∧ (setAcc attrs).name = some n ∧
        st = ⟨family, t, n⟩) := by
  refine ⟨?_, ?_, ?_⟩
  · intro f hf hbit
    have hpos : f &&& 1 > 0 := Nat.pos_of_ne_zero hbit
    simp only [parse_set, hf, if_pos hpos]
  · intro kt hkt h7 h8 h9
    have hmem : ¬(kt = 7 ∨ kt = 8 ∨ kt = 9) := by simp [h7, h8, h9]
    simp only [parse_set, hkt]
    cases hf : (setAcc attrs).flags with
    | none => rfl
    | some f =>
      by_cases hbit : f &&& 1 > 0
      · simp only [if_pos hbit]
      · simp only [if_neg hbit, if_neg hmem]
  · intro st hst
    simp only [parse_set] at hst
    cases hf : (setAcc attrs).flags with
    | none => rw [hf] at hst; exact absurd hst (by simp)
    | some f =>
      simp only [hf] at hst
      by_cases hbit : f &&& 1 > 0
      · rw [if_pos hbit] at hst
        exact absurd hst (by simp)
      · rw [if_neg hbit] at hst
        cases hkt : (setAcc attrs).key_type with
        | none => rw [hkt] at hst; exact absurd hst (by simp)
        | some kt =>
          simp only [hkt] at hst
          by_cases hmem : kt = 7 ∨ kt = 8 ∨ kt = 9
          · rw [if_pos hmem] at hst
            cases ht : (setAcc attrs).table with
            | none =>
              rw [ht] at hst
              cases hn : (setAcc attrs).name <;> simp [hn] at hst
            | some t =>
              cases hn : (setAcc attrs).name with
              | none => rw [ht, hn] at hst; exact absurd hst (by simp)
              | some n =>
                rw [ht, hn] at hst
                simp only [Option.some_inj] at hst
                exact ⟨f, kt, t, n, rfl, by omega, rfl, hmem, rfl, rfl, hst.symm⟩
          · rw [if_neg hmem] at hst
            exact absurd hst (by simp)

/-- Witness for C4: an anonymous set (big-endian flags payload 0,0,0,1,
decoding and byte-swapping to 1) is excluded. -/
theorem parse_set_filtering_witness :
    parse_set 2 [⟨3, Option.none, [0, 0, 0, 1]⟩] = Option.none :=
  (parse_set_filtering 2 [⟨3, Option.none, [0, 0, 0, 1]⟩]).1 1 (by decide) (by decide)

/-! ### External-daemon snapshot caches (src/collector/kea.rs, unbound.rs) -/

/-- Embeds `struct Stats` of kea.rs (the capture time modelled by its
milliseconds since the epoch). -/
structure KeaStats where
  timestamp : Int
  pkt4_received : Nat
  pkt4_sent : Nat
  v4_allocation_fail : Nat
deriving DecidableEq

/-- Embeds `struct Stats` of unbound.rs. -/
structure UnboundStats where
  timestamp : Int
  total_num_queries : Nat
  total_num_queries_timed_out : Nat
deriving DecidableEq

/-- One turn of the background task loop shared by `Kea::task` and
`Unbound::task`: a successful fetch overwrites the snapshot slot, a
failed fetch (modelled `Option.none`) only logs and leaves it unchanged. -/
def taskStep {σ : Type} (st : Option σ) (fetch : Option σ) : Option σ :=
  match fetch with
  | some s => some s
  | Option.none => st

/-- The snapshot slot after a sequence of background fetch outcomes. -/
def taskRun {σ : Type} (st : Option σ) (fetches : List (Option σ)) : Option σ :=
  fetches.foldl taskStep st

/-- Embeds `Kea::collect`: with an absent snapshot nothing is written;
otherwise the three counters are written with the snapshot's capture
timestamp. -/
def keaCollect : Option KeaStats → List (List Char × Nat × Int)
  | Option.none => []
  | some s =>
    [("dhcp_received".toList, s.pkt4_received, s.timestamp),
     ("dhcp_sent".toList, s.pkt4_sent, s.timestamp),
     ("dhcp_addr_fail".toList, s.v4_allocation_fail, s.timestamp)]

/-- Embeds `Unbound::collect`. -/
def unboundCollect : Option UnboundStats → List (List Char × Nat × Int)
  | Option.none => []
  | some s =>
    [("dns_query".toList, s.total_num_queries, s.timestamp),
     ("dns_timeout".toList, s.total_num_queries_timed_out, s.timestamp)]

theorem taskRun_failures {σ : Type} (st : Option σ) (n : Nat) :
    taskRun st (List.replicate n Option.none) = st := by
  induction n with
  | zero => rfl
  | succ m ih =>
    simpa [taskRun, List.replicate_succ, taskStep] using ih

/-- C7: for each external-daemon cache, after one successful fetch any
number of consecutive failed background fetches leaves the stored
snapshot unchanged, so every subsequent scrape returns the original
values; and before any successful fetch the snapshot is absent and the
scrape emits no sample (never a placeholder zero). -/
theorem external_cache_staleness (n : Nat) (k : KeaStats) (u : UnboundStats) :
    taskRun (some k) (List.replicate n Option.none) = some k ∧
      keaCollect (taskRun (some k) (List.replicate n Option.none)) = keaCollect (some k) ∧
      taskRun (some u) (List.replicate n Option.none) = some u ∧
      unboundCollect (taskRun (some u) (List.replicate n Option.none)) =
        unboundCollect (some u) ∧
      keaCollect Option.none = [] ∧ unboundCollect Option.none = [] := by
  refine ⟨taskRun_failures _ n, ?_, taskRun_failures _ n, ?_, rfl, rfl⟩
  · rw [taskRun_failures]
  · rw [taskRun_failures]

/-! ### rtnetlink link decoding (src/collector/linux/rtnetlink.rs) -/

/-- Embeds `struct Link`. -/
structure Link where
  name : List Char
  admin_up : Bool
  operstate : Nat
  rx : Nat
  tx : Nat
deriving DecidableEq

/-- A link reply attribute: IFLA_IFNAME carries the outcome of the
fallible string accessor, IFLA_OPERSTATE the outcome of the u8 accessor,
IFLA_STATS64 its raw payload bytes; other tags are ignored. -/
inductive LinkAttr
  | ifname (v : Option (List Char))
  | operstate (v : Option Nat)
  | stats64 (bytes : List Nat)
  | other

/-- Decode eight little-endian bytes as `u64::from_ne_bytes` does on a
little-endian host. -/
def u64le (bs : List Nat) : Nat :=
  (bs.take 8).foldr (fun b acc => b % 2 ^ 8 + acc * 2 ^ 8) 0

/-- The three mutable locals of `parse_get_link_response`'s loop. -/
structure LinkAcc where
  name : Option (List Char) := Option.none
  operstate : Option Nat := Option.none
  stats64 : Option (List Nat) := Option.none

/-- One iteration of the attribute loop of `parse_get_link_response`. -/
def linkAccStep (s : LinkAcc) (a : LinkAttr) : LinkAcc :=
  match a with
  | .ifname v => { s with name := v }
  | .operstate v => { s with operstate := v }
  | .stats64 b => { s with stats64 := some b }
  | .other => s

/-- The locals after the whole loop. -/
def linkAcc (attrs : List LinkAttr) : LinkAcc :=
  attrs.foldl linkAccStep {}

/-- Embeds `parse_get_link_response`: admin state is the IFF_UP bit
(bit 0) of the interface flags, operstate defaults to 0, the rx/tx
counters are bytes 16..24 and 24..32 of the stats64 blob and default to 0
when the blob is absent or shorter than 32 bytes, and the device name is
required — without it the entry is dropped. -/
def parse_get_link_response (ifi_flags : Nat) (attrs : List LinkAttr) : Option Link :=
  let s := linkAcc attrs
  let operstate := s.operstate.getD 0
  let rxtx : Nat × Nat :=
    match s.stats64 with
    | some b => if b.length ≥ 32 then (u64le ((b.drop 16).take 8), u64le ((b.drop 24).take 8))
                else (0, 0)
    | Option.none => (0, 0)
  s.name.map fun name =>
    { name := name, admin_up := ifi_flags &&& 1 != 0,
      operstate := operstate, rx := rxtx.1, tx := rxtx.2 }

/-- C10: a link reply whose name attribute decoded is kept even when the
operstate attribute or the stats64 attribute is absent or the stats blob
is shorter than 32 bytes — operstate then defaults to 0 and the counters
default to 0 — while a reply without a decoded name is dropped. -/
theorem link_reply_defaults (ifi_flags : Nat) (attrs : List LinkAttr) :
    ((linkAcc attrs).name = Option.none →
      parse_get_link_response ifi_flags attrs = Option.none) ∧
    (∀ nm, (linkAcc attrs).name = some nm →
      ∃ l, parse_get_link_response ifi_flags attrs = some l ∧ l.name = nm ∧
        ((linkAcc attrs).operstate = Option.none → l.operstate = 0) ∧
        ((linkAcc attrs).stats64 = Option.none → l.rx = 0 ∧ l.tx = 0) ∧
        (∀ b, (linkAcc attrs).stats64 = some b → b.length < 32 →
          l.rx = 0 ∧ l.tx = 0)) := by
  constructor
  · intro h
    simp [parse_get_link_response, h]
  · intro nm h
    simp only [parse_get_link_response, h, Option.map_some]
    refine ⟨_, rfl, rfl, ?_, ?_, ?_⟩
    · intro hop
      simp [hop]
    · intro hst
      simp [hst]
    · intro b hst hlen
      simp [hst, Nat.not_le.mpr hlen]

/-- Witness for C10: a reply carrying only a decoded name (no operstate,
no stats64) yields an entry with operstate 0 and zero counters. -/
theorem link_reply_defaults_witness :
    ∃ l, parse_get_link_response 1 [.ifname (some "eth0".toList)] = some l ∧
      l.name = "eth0".toList ∧
      ((linkAcc [.ifname (some "eth0".toList)]).operstate = Option.none → l.operstate = 0) ∧
      ((linkAcc [.ifname (some "eth0".toList)]).stats64 = Option.none → l.rx = 0 ∧ l.tx = 0) ∧
      (∀ b, (linkAcc [.ifname (some "eth0".toList)]).stats64 = some b → b.length < 32 →
        l.rx = 0 ∧ l.tx = 0) :=
  (link_reply_defaults 1 [.ifname (some "eth0".toList)]).2 "eth0".toList rfl

/-! ### rtnetlink route decoding -/

/-- An IP address as `net::IpAddr`: four octets or eight 16-bit
segments. -/
inductive IpAddr
  | v4 (a b c d : Nat)
  | v6 (segs : List Nat)
deriving DecidableEq

/-- Embeds `Ipv6Addr::is_unicast_link_local`: the first segment masked
with 0xffc0 equals 0xfe80. -/
def isUnicastLinkLocal (segs : List Nat) : Bool :=
  segs.getD 0 0 &&& 0xffc0 == 0xfe80

/-- The gateway address together with the scope id of the enclosing
socket address (`SocketAddrV6::new(v6, 0, 0, oif)` for a scoped
link-local gateway, scope 0 otherwise). -/
structure RouteAddr where
  ip : IpAddr
  scope : Nat
deriving DecidableEq

/-- A route reply attribute: RTA_GATEWAY carries its raw payload bytes,
RTA_OIF the outcome of the u32 accessor; other tags are ignored. -/
inductive RouteAttr
  | gateway (bytes : List Nat)
  | oif (v : Option Nat)
  | other

/-- The two mutable locals of `parse_get_route_response`'s loop. -/
structure RouteAcc where
  gateway : Option (List Nat) := Option.none
  oif : Option Nat := Option.none

/-- The locals after the attribute loop. -/
def routeAcc (attrs : List RouteAttr) : RouteAcc :=
  attrs.foldl
    (fun s a =>
      match a with
      | .gateway b => { s with gateway := some b }
      | .oif v => { s with oif := v }
      | .other => s)
    {}

/-- Sixteen bytes into eight big-endian 16-bit segments, as
`Ipv6Addr::from([u8; 16])` groups them. -/
def v6Segs : List Nat → List Nat
  | b0 :: b1 :: rest => ((b0 % 2 ^ 8) * 2 ^ 8 + b1 % 2 ^ 8) :: v6Segs rest
  | _ => []

/-- Embeds the `and_then` closure of `parse_get_route_response`: a 4-byte
gateway payload is an IPv4 address, a 16-byte one an IPv6 address, any
other length decodes to nothing. -/
def decodeGateway : Option (List Nat) → Option IpAddr
  | some [a, b, c, d] => some (IpAddr.v4 a b c d)
  | some bs => if bs.length = 16 then some (IpAddr.v6 (v6Segs bs)) else Option.none
  | Option.none => Option.none

/-- Embeds `parse_get_route_response`: a reply is a default route iff its
destination prefix length is 0; a link-local unicast IPv6 gateway gets
the outgoing-interface index (defaulting to 0) as scope, every other
gateway scope 0. -/
def parse_get_route_response (rtm_dst_len : Nat) (attrs : List RouteAttr) :
    Option RouteAddr :=
  if rtm_dst_len ≠ 0 then Option.none
  else
    let s := routeAcc attrs
    (decodeGateway s.gateway).map
      fun (ip : IpAddr) =>
        match ip with
        | .v6 segs =>
          if isUnicastLinkLocal segs then ⟨ip, s.oif.getD 0⟩ else ⟨ip, 0⟩
        | _ => ⟨ip, 0⟩

/-- Embeds `Linux::collect_net_route` over a list of already-received
replies: one sample of value 1 per decoded default route, labeled by the
route's IP address (`route.ip()` drops the scope id). -/
def collect_net_route (replies : List (Nat × List RouteAttr)) : List (IpAddr × Nat) :=
  (replies.filterMap fun r => parse_get_route_response r.1 r.2).map fun ra => (ra.ip, 1)

/-- Embeds `Ipv4Addr`'s dotted-decimal `Display`, used to form the
gateway label string. -/
def ipv4ToString (a b c d : Nat) : List Char :=
  (toString a ++ "." ++ toString b ++ "." ++ toString c ++ "." ++ toString d).toList

theorem decodeGateway_len16 (bs : List Nat) (h : bs.length = 16) :
    decodeGateway (some bs) = some (IpAddr.v6 (v6Segs bs)) := by
  rcases bs with _ | ⟨a, _ | ⟨b, _ | ⟨c, _ | ⟨d, _ | ⟨e, tl⟩⟩⟩⟩⟩ <;>
    simp_all [decodeGateway]

theorem decodeGateway_bad_len (bs : List Nat) (h4 : bs.length ≠ 4)
    (h16 : bs.length ≠ 16) : decodeGateway (some bs) = Option.none := by
  rcases bs with _ | ⟨a, _ | ⟨b, _ | ⟨c, _ | ⟨d, _ | ⟨e, tl⟩⟩⟩⟩⟩ <;>
    simp_all [decodeGateway]

/-- C6: a route reply is treated as a default route iff its destination
prefix length is 0 — a nonzero prefix length yields no sample; with
prefix length 0 and the 4-byte gateway [192,0,2,1] exactly one sample is
produced, whose address renders as 192.0.2.1; a 16-byte gateway yields
the IPv6 address with the outgoing-interface index attached as scope
exactly when the address is unicast link-local; a gateway of any other
length yields nothing. -/
theorem default_route_detection :
    (∀ (dst : Nat) (attrs : List RouteAttr), dst ≠ 0 →
      parse_get_route_response dst attrs = Option.none ∧
        collect_net_route [(dst, attrs)] = []) ∧
    (collect_net_route [(0, [.gateway [192, 0, 2, 1]])] = [(IpAddr.v4 192 0 2 1, 1)] ∧
      ipv4ToString 192 0 2 1 = "192.0.2.1".toList) ∧
    (∀ (attrs : List RouteAttr) (b : List Nat),
      (routeAcc attrs).gateway = some b → b.length = 16 →
      parse_get_route_response 0 attrs =
        some ⟨.v6 (v6Segs b),
          if isUnicastLinkLocal (v6Segs b) then ((routeAcc attrs).oif).getD 0 else 0⟩) ∧
    (∀ (attrs : List RouteAttr) (b : List Nat),
      (routeAcc attrs).gateway = some b → b.length ≠ 4 → b.length ≠ 16 →
      parse_get_route_response 0 attrs = Option.none) := by
  refine ⟨?_, ⟨by decide, by decide⟩, ?_, ?_⟩
  · intro dst attrs hdst
    have hp : parse_get_route_response dst attrs = Option.none := by
      simp [parse_get_route_response, hdst]
    exact ⟨hp, by simp [collect_net_route, hp]⟩
  · intro attrs b hgw hlen
    simp only [parse_get_route_response, if_neg (by decide : ¬((0 : Nat) ≠ 0)), hgw,
      decodeGateway_len16 b hlen, Option.map_some]
    by_cases hll : isUnicastLinkLocal (v6Segs b)
    · simp [hll]
    · simp [hll]
  · intro attrs b hgw h4 h16
    simp [parse_get_route_response, hgw, decodeGateway_bad_len b h4 h16]

/-- Witness for C6 at concrete inputs: a /0 route with a 16-byte
link-local gateway fe80::1 via interface 7 and a malformed 5-byte
gateway. -/
theorem default_route_detection_witness :
    parse_get_route_response 5 [] = Option.none ∧
      parse_get_route_response 0
          [.gateway [0xfe, 0x80, 0, 0, 0, 0, 0, 0, 0, 0, 0, 0, 0, 0, 0, 1], .oif (some 7)] =
        some ⟨.v6 (v6Segs [0xfe, 0x80, 0, 0, 0, 0, 0, 0, 0, 0, 0, 0, 0, 0, 0, 1]),
          if isUnicastLinkLocal
              (v6Segs [0xfe, 0x80, 0, 0, 0, 0, 0, 0, 0, 0, 0, 0, 0, 0, 0, 1])
            then ((routeAcc
              [.gateway [0xfe, 0x80, 0, 0, 0, 0, 0, 0, 0, 0, 0, 0, 0, 0, 0, 1],
               .oif (some 7)]).oif).getD 0
            else 0⟩ ∧
      parse_get_route_response 0 [.gateway [1, 2, 3, 4, 5]] = Option.none :=
  ⟨(default_route_detection.1 5 [] (by decide)).1,
   default_route_detection.2.2.1
     [.gateway [0xfe, 0x80, 0, 0, 0, 0, 0, 0, 0, 0, 0, 0, 0, 0, 0, 1], .oif (some 7)]
     [0xfe, 0x80, 0, 0, 0, 0, 0, 0, 0, 0, 0, 0, 0, 0, 0, 1] (by decide) (by decide),
   default_route_detection.2.2.2 [.gateway [1, 2, 3, 4, 5]] [1, 2, 3, 4, 5]
     (by decide) (by decide) (by decide)⟩

/-! ### nftables set-element iteration (src/collector/linux/nfnetlink.rs) -/

/-- Embeds `struct NftSetCounter` (formatted key and byte count). -/
structure NftSetCounter where
  addr : List Char
  bytes : Nat
deriving DecidableEq

/-- An attribute of a set-element reply payload: an
NFTA_SET_ELEM_LIST_ELEMENTS attribute carries its element entries, each
modelled by the outcome of `get_attr_handle().ok().and_then(parse_set_elem)`
on it (`some` a decodable key+counter element, `Option.none` otherwise);
any other attribute tag, or one whose nested handle fails, is skipped by
the loop and is modelled `other`. -/
inductive ElemListAttr
  | elements (elems : List (Option NftSetCounter))
  | other
deriving DecidableEq

/-- A set-element reply message: `Option.none` models a reply whose
`get_payload()` is absent, `some attrs` its attribute list. -/
abbrev ElemMsg := Option (List ElemListAttr)

/-- The element entries of an attribute (none for a non-Elements one). -/
def attrElems : ElemListAttr → List (Option NftSetCounter)
  | .elements l => l
  | .other => []

/-- Embeds `parse_set_elem_list`: scan the element entries from
`base_idx` upward and return the index and value of the first entry that
decodes. -/
def parse_set_elem_list (elems : List (Option NftSetCounter)) (idx : Nat) :
    Option (Nat × NftSetCounter) :=
  if h : idx < elems.length then
    match elems.get ⟨idx, h⟩ with
    | some c => some (idx, c)
    | Option.none => parse_set_elem_list elems (idx + 1)
  else Option.none
termination_by elems.length - idx

/-- Embeds the `while self.cur_attr < attrs.len()` loop of
`NftSetCounterIter::next`: from attribute index `curAttr` — scanning its
Elements entries from `curElem`, and later attributes from entry 0 — find
the next decodable element; on success the iterator keeps attribute index
`a` and stores element index `idx + 1`. -/
def scanAttrs (attrs : List ElemListAttr) (curAttr curElem : Nat) :
    Option (Nat × Nat × NftSetCounter) :=
  if h : curAttr < attrs.length then
    match attrs.get ⟨curAttr, h⟩ with
    | .elements elems =>
      match parse_set_elem_list elems curElem with
      | some (idx, c) => some (curAttr, idx + 1, c)
      | Option.none => scanAttrs attrs (curAttr + 1) 0
    | .other => scanAttrs attrs (curAttr + 1) 0
  else Option.none
termination_by attrs.length - curAttr

/-- The decodable elements of one attribute, in order. -/
def attrCounters (a : ElemListAttr) : List NftSetCounter :=
  (attrElems a).filterMap id

/-- The decodable elements remaining in one message from iterator state
(attribute index `i`, element index `j` within it): the rest of attribute
`i`'s entries, then every later attribute's entries. -/
def specAttrsFrom (attrs : List ElemListAttr) (i j : Nat) : List NftSetCounter :=
  ((attrElems (attrs.getD i .other)).drop j).filterMap id ++
    ((attrs.drop (i + 1)).map attrCounters).join

theorem psel_char (elems : List (Option NftSetCounter)) (i : Nat) :
    (parse_set_elem_list elems i = Option.none →
      (elems.drop i).filterMap id = []) ∧
    (∀ idx c, parse_set_elem_list elems i = some (idx, c) →
      i ≤ idx ∧ idx < elems.length ∧
        (elems.drop i).filterMap id = c :: (elems.drop (idx + 1)).filterMap id) := by
  induction i using parse_set_elem_list.induct elems with
  | case1 x h c hget =>
    have hval : parse_set_elem_list elems x = some (x, c) := by
      rw [parse_set_elem_list.eq_def, dif_pos h, hget]
    have hget' : elems[x] = some c := hget
    constructor
    · intro hnone
      rw [hval] at hnone
      exact absurd hnone (by simp)
    · intro idx c2 hsome
      rw [hval] at hsome
      simp only [Option.some_inj, Prod.mk.injEq] at hsome
      obtain ⟨rfl, rfl⟩ := hsome
      refine ⟨le_refl _, h, ?_⟩
      rw [List.drop_eq_getElem_cons h]
      simp [hget']
  | case2 x h hget ih =>
    have hval : parse_set_elem_list elems x = parse_set_elem_list elems (x + 1) := by
      rw [parse_set_elem_list.eq_def, dif_pos h, hget]
    have hget' : elems[x] = Option.none := hget
    have hdrop : (elems.drop x).filterMap id = (elems.drop (x + 1)).filterMap id := by
      rw [List.drop_eq_getElem_cons h]
      simp [hget']
    constructor
    · intro hnone
      rw [hval] at hnone
      rw [hdrop]
      exact ih.1 hnone
    · intro idx c2 hsome
      rw [hval] at hsome
      obtain ⟨h1, h2, h3⟩ := ih.2 idx c2 hsome
      exact ⟨by omega, h2, by rw [hdrop]; exact h3⟩
  | case3 x h =>
    have hval : parse_set_elem_list elems x = Option.none := by
      rw [parse_set_elem_list.eq_def, dif_neg h]
    have hdrop : elems.drop x = [] := List.drop_eq_nil_of_le (by omega)
    constructor
    · intro _
      simp [hdrop]
    · intro idx c2 hsome
      rw [hval] at hsome
      exact absurd hsome (by simp)

theorem specAttrsFrom_succ (attrs : List ElemListAttr) (i : Nat) :
    specAttrsFrom attrs (i + 1) 0 = ((attrs.drop (i + 1)).map attrCounters).join := by
  by_cases h : i + 1 < attrs.length
  · have hgd : attrs.getD (i + 1) .other = attrs[i + 1] := List.getD_eq_getElem attrs .other h
    have hd : attrs.drop (i + 1) = attrs[i + 1] :: attrs.drop (i + 2) :=
      List.drop_eq_getElem_cons h
    rw [specAttrsFrom, hgd, hd, List.map_cons]
    simp [attrCounters]
  · have h1 : attrs.drop (i + 1) = [] := List.drop_eq_nil_of_le (by omega)
    have h2 : attrs.drop (i + 1 + 1) = [] := List.drop_eq_nil_of_le (by omega)
    have hgd : attrs.getD (i + 1) ElemListAttr.other = ElemListAttr.other := by
      rw [List.getD_eq_default]
      omega
    rw [specAttrsFrom, hgd, h1, h2]
    simp [attrElems]

theorem scan_char (attrs : List ElemListAttr) (i j : Nat) :
    (scanAttrs attrs i j = Option.none → specAttrsFrom attrs i j = []) ∧
    (∀ a e c, scanAttrs attrs i j = some (a, e, c) →
      i ≤ a ∧ a < attrs.length ∧
        e ≤ (attrElems (attrs.getD a .other)).length ∧ (a = i → j < e) ∧
        specAttrsFrom attrs i j = c :: specAttrsFrom attrs a e) := by
  induction i, j using scanAttrs.induct attrs with
  | case1 x j h elems hget idx c hpsel =>
    have hval : scanAttrs attrs x j = some (x, idx + 1, c) := by
      rw [scanAttrs.eq_def, dif_pos h, hget]
      simp only [hpsel]
    have hgd : attrs.getD x .other = .elements elems := by
      rw [List.getD_eq_getElem attrs .other h]
      exact hget
    obtain ⟨hji, hilen, hdrop⟩ := (psel_char elems j).2 idx c hpsel
    constructor
    · intro hnone
      rw [hval] at hnone
      exact absurd hnone (by simp)
    · intro a e c2 hsome
      rw [hval] at hsome
      simp only [Option.some_inj, Prod.mk.injEq] at hsome
      obtain ⟨rfl, rfl, rfl⟩ := hsome
      refine ⟨le_refl _, h, ?_, fun _ => by omega, ?_⟩
      · rw [hgd]
        simpa [attrElems] using hilen
      · rw [specAttrsFrom, specAttrsFrom, hgd]
        simp only [attrElems, hdrop, List.cons_append]
  | case2 x j h elems hget hpsel ih =>
    have hval : scanAttrs attrs x j = scanAttrs attrs (x + 1) 0 := by
      rw [scanAttrs.eq_def, dif_pos h, hget]
      simp only [hpsel]
    have hgd : attrs.getD x .other = .elements elems := by
      rw [List.getD_eq_getElem attrs .other h]
      exact hget
    have hnil : ((attrElems (attrs.getD x .other)).drop j).filterMap id = [] := by
      rw [hgd]
      exact (psel_char elems j).1 hpsel
    have hspec : specAttrsFrom attrs x j = specAttrsFrom attrs (x + 1) 0 := by
      rw [specAttrsFrom, hnil, specAttrsFrom_succ]
      simp
    constructor
    · intro hnone
      rw [hval] at hnone
      rw [hspec]
      exact ih.1 hnone
    · intro a e c2 hsome
      rw [hval] at hsome
      obtain ⟨h1, h2, h3, h4, h5⟩ := ih.2 a e c2 hsome
      exact ⟨by omega, h2, h3, fun ha => by omega, by rw [hspec]; exact h5⟩
  | case3 x j h hget ih =>
    have hval : scanAttrs attrs x j = scanAttrs attrs (x + 1) 0 := by
      rw [scanAttrs.eq_def, dif_pos h, hget]
    have hgd : attrs.getD x .other = .other := by
      rw [List.getD_eq_getElem attrs .other h]
      exact hget
    have hnil : ((attrElems (attrs.getD x .other)).drop j).filterMap id = [] := by
      rw [hgd]
      simp [attrElems]
    have hspec : specAttrsFrom attrs x j = specAttrsFrom attrs (x + 1) 0 := by
      rw [specAttrsFrom, hnil, specAttrsFrom_succ]
      simp
    constructor
    · intro hnone
      rw [hval] at hnone
      rw [hspec]
      exact ih.1 hnone
    · intro a e c2 hsome
      rw [hval] at hsome
      obtain ⟨h1, h2, h3, h4, h5⟩ := ih.2 a e c2 hsome
      exact ⟨by omega, h2, h3, fun ha => by omega, by rw [hspec]; exact h5⟩
  | case4 x j h =>
    have hval : scanAttrs attrs x j = Option.none := by
      rw [scanAttrs.eq_def, dif_neg h]
    have hgd : attrs.getD x ElemListAttr.other = ElemListAttr.other := by
      rw [List.getD_eq_default]
      omega
    have h1 : attrs.drop (x + 1) = [] := List.drop_eq_nil_of_le (by omega)
    constructor
    · intro _
      rw [specAttrsFrom, hgd, h1]
      simp [attrElems]
    · intro a e c2 hsome
      rw [hval] at hsome
      exact absurd hsome (by simp)

/-- Embeds driving `NftSetCounterIter::next` to exhaustion within the
current reply message from persisted state (cur_attr = `i`,
cur_elem = `j`): each success stores the found indices back into the
state, so the next advance resumes exactly after the element just
yielded. -/
def drainMsg (attrs : List ElemListAttr) (i j : Nat) : List NftSetCounter :=
  match h : scanAttrs attrs i j with
  | some (a, e, c) => c :: drainMsg attrs a e
  | Option.none => []
termination_by (attrs.length - i, (attrElems (attrs.getD i .other)).length - j)
decreasing_by
  obtain ⟨hia, halen, helen, hje, _⟩ := (scan_char attrs i j).2 a e c h
  rcases eq_or_lt_of_le hia with heq | hlt
  · subst heq
    exact Prod.Lex.right _ (by omega)
  · exact Prod.Lex.left _ _ (by omega)

theorem drainMsg_spec (attrs : List ElemListAttr) (i j : Nat) :
    drainMsg attrs i j = specAttrsFrom attrs i j := by
  induction i, j using drainMsg.induct attrs with
  | case1 i j a e c h ih =>
    have hval : drainMsg attrs i j = c :: drainMsg attrs a e := by
      rw [drainMsg.eq_def, h]
    obtain ⟨_, _, _, _, hspec⟩ := (scan_char attrs i j).2 a e c h
    rw [hval, ih, hspec]
  | case2 i j h =>
    have hval : drainMsg attrs i j = [] := by
      rw [drainMsg.eq_def, h]
    rw [hval, (scan_char attrs i j).1 h]

/-- The exhaustive yield sequence of `NftSetCounterIter` over the reply
messages of one dump: starting with no current message, each advance
first resumes the persisted (message, attribute, element) state, then
fetches the next reply with the indices reset. -/
def runAll : List ElemMsg → List NftSetCounter
  | [] => []
  | m :: rest =>
    (match m with
     | some attrs => drainMsg attrs 0 0
     | Option.none => []) ++ runAll rest

/-- The decodable elements of one reply message, in attribute order then
element order. -/
def msgCounters : ElemMsg → List NftSetCounter
  | some attrs => (attrs.map attrCounters).join
  | Option.none => []

/-- The decodable elements of a dump, in message, list-attribute and
element order. -/
def specElems (msgs : List ElemMsg) : List NftSetCounter :=
  (msgs.map msgCounters).join

theorem specAttrsFrom_zero (attrs : List ElemListAttr) :
    specAttrsFrom attrs 0 0 = (attrs.map attrCounters).join := by
  cases attrs with
  | nil => rfl
  | cons a rest =>
    rw [specAttrsFrom]
    simp [attrCounters, List.getD]

/-- C3: for every sequence of set-element reply messages, each holding
any number of list attributes with any number of element entries,
iterating NftSetCounterIter yields exactly the decodable elements in
message order, list order and element order, each exactly once — none
double-counted, none dropped at a message or list-attribute boundary —
the persisted (message, attribute-index, element-index) state resuming
each advance where the previous one stopped. -/
theorem nft_counter_iter_exact (msgs : List ElemMsg) :
    runAll msgs = specElems msgs := by
  induction msgs with
  | nil => rfl
  | cons m rest ih =>
    cases m with
    | none =>
      simp only [runAll, ih, specElems, List.map_cons, List.join, msgCounters]
      simp
    | some attrs =>
      simp only [runAll, drainMsg_spec, specAttrsFrom_zero, ih]
      simp [specElems, msgCounters]

end HomeRouter
